import Mathlib

/-!
Verification of the HOA clause-retrieval pipeline (`ask_gpt.py`, `app.py`).

The Python source is shallowly embedded: strings are Lean `String`
(lists of characters, matching Python's per-character slicing), Python
floats are modelled as exact rationals `ℚ`, dictionary fields that may be
absent are `Option` fields, values that may be non-numeric are a small
`PVal` type, and code that can raise is given an `Except Unit` result.
External collaborators (embedding service, semantic store, relational
store, text generation) are modelled either as an abstract list of rows
(for data-level claims) or as per-request outcome oracles (for
control-flow claims).
-/

namespace HOA

/-! ### Python string primitives -/

/-- Python whitespace for `str.strip()`. -/
def isPySpace (c : Char) : Bool :=
  c = ' ' || c = '\t' || c = '\n' || c = '\r' || c = '\x0b' || c = '\x0c'

/-- Python `str.strip()` on a character list: drop whitespace at both ends. -/
def stripL (l : List Char) : List Char :=
  ((l.dropWhile isPySpace).reverse.dropWhile isPySpace).reverse

/-- Python `str.strip()`. -/
def pyStrip (s : String) : String := String.mk (stripL s.toList)

/-- Python `str.lower()` (ASCII case folding, enough for this code base). -/
def pyLower (s : String) : String := String.mk (s.toList.map Char.toLower)

/-- Tests whether `needle` occurs at the head of `hay`. -/
def hasPre : List Char → List Char → Bool
  | [], _ => true
  | _ :: _, [] => false
  | a :: as2, b :: bs => a == b && hasPre as2 bs

/-- Python's substring test `needle in hay` on character lists. -/
def containsSubL (needle : List Char) : List Char → Bool
  | [] => needle.isEmpty
  | b :: bs => hasPre needle (b :: bs) || containsSubL needle bs

/-- Python's substring test `needle in hay`. -/
def containsSubStr (needle hay : String) : Bool :=
  containsSubL needle.toList hay.toList

/-- Truthiness of an optional string (Python: `None` and `""` are falsy). -/
def strTruthy : Option String → Bool
  | none => false
  | some s => s ≠ ""

/-- Python `a or b` on optional strings: `a` when truthy, else `b`. -/
def pyOr (a b : Option String) : Option String := if strTruthy a then a else b

/-- Truthiness of an optional string used as a filter argument. -/
def optTruthy (o : Option String) : Bool := strTruthy o

/-! ### Data model

A clause row, as read from the relational store and annotated in place by
the pipeline.  `none` on a field means the key is absent from the dict.
`precedence_level` may hold an int, an arbitrary string, or Python `None`;
`tags` may hold a proper list of strings or some non-list value. -/

inductive PVal where
  | vint : Int → PVal
  | vstr : String → PVal
  | vnull : PVal
deriving DecidableEq

inductive TagsVal where
  | tlist : List String → TagsVal
  | tother : TagsVal
deriving DecidableEq

structure Clause where
  clause_id : Option String
  id : Option String
  plain_summary : Option String
  clause_text : Option String
  citation : Option String
  link : Option String
  document : Option String
  precedence_level : Option PVal
  tags : Option TagsVal
  structure_type : Option String
  concern_level : Option String
  match_source : Option String
deriving DecidableEq

/-- A clause record with every key absent. -/
def emptyClause : Clause :=
  { clause_id := none, id := none, plain_summary := none, clause_text := none,
    citation := none, link := none, document := none, precedence_level := none,
    tags := none, structure_type := none, concern_level := none, match_source := none }

/-- Python `int(v)` on a digit list (no sign): `none` when empty or a
non-digit is present. -/
def digitsToNat (l : List Char) : Option Nat :=
  if l = [] || l.any (fun c => !c.isDigit) then none
  else some (l.foldl (fun a c => a * 10 + (c.toNat - 48)) 0)

/-- Python `int(s)` on a string: strip, optional sign, digits. -/
def parseIntL (l : List Char) : Option Int :=
  match stripL l with
  | '-' :: rest => (digitsToNat rest).map (fun n => -(n : Int))
  | '+' :: rest => (digitsToNat rest).map (fun n => (n : Int))
  | rest => (digitsToNat rest).map (fun n => (n : Int))

/-- Python `int(v)` on a stored value; `none` models a raised exception. -/
def pyToInt : PVal → Option Int
  | .vint n => some n
  | .vstr s => parseIntL s.toList
  | .vnull => none

/-- Python `int(v)` where `v` came from `dict.get` (absent key gives
`None`, on which `int` raises). -/
def pvalToInt : Option PVal → Option Int
  | none => none
  | some v => pyToInt v

/-! ### Config toggles (`ask_gpt.py` lines 12-13) -/

def INCLUDE_FULL_TEXT_TOP_N : Nat := 2
def INCLUDE_FULL_TEXT_MAX_CHARS : Nat := 1200

/-! ### Instant whimsy (`check_instant_whimsy`) -/

def creator_keywords : List String :=
  ["creator", "developer", "who made you", "who built you",
   "how were you made", "who created you", "who designed you", "who programmed you"]

def dragon_keywords : List String :=
  ["dragon", "castle", "wizard", "unicorn", "fairy", "goblin", "elf", "moat", "magic"]

def creatorResponses : List String :=
  ["My creator was a combination of code, governing documents, and the hard work of your community members working for you.",
   "Created by your fellow HOA members to make your life easier.",
   "Built by your community to help you navigate your governing documents.",
   "Developed by your HOA members to make your life simpler.",
   "I was created by your fellow community members to provide you with an easy-to-use tool to search your governing documents."]

def dragonResponses : List String :=
  ["Dragons? I guard HOA secrets like a scaly beast, but I can’t help with fire-breathing dragons. Try fences instead!",
   "Ah, dragons and castles! Sadly I handle covenants, not quests. Ask me about sheds!",
   "If you see a wizard in your yard, call the ARC — or maybe just me. 🧙‍♂️"]

/-- Model of `random.choice`, with the randomness source made explicit as an index. -/
def pyChoice (choice : Nat) (l : List String) : String := l.getD (choice % l.length) ""

/-- Model of `check_instant_whimsy(question_lower)`: substring match against the
creator keyword set, then the dragon keyword set. -/
def check_instant_whimsy (question_lower : String) (choice : Nat) : Option String :=
  if creator_keywords.any (fun k => containsSubStr k question_lower) then
    some (pyChoice choice creatorResponses)
  else if dragon_keywords.any (fun k => containsSubStr k question_lower) then
    some (pyChoice choice dragonResponses)
  else
    none

/-! ### Helpers (`STOPWORDS`, `_trim`, `_tokenize`, `extract_keywords`,
`_hit_ratio`, `_score_clause`) -/

def STOPWORDS : List String :=
  ["the","a","an","and","or","of","to","in","on","for","with","by","is","are","was","were",
   "be","can","i","my","our","your","their","as","it","that","this","do","does","did","from",
   "at","we","you","they","have","has","had","me","us","them","am","will","shall","may",
   "should","would","could","not","no","yes","if","but","so","than","then","who","what",
   "when","where","why","how"]

/-- Model of `_trim(text, max_chars)`: empty in, empty out; otherwise strip, and
truncate to `max_chars` characters plus an ellipsis when longer. -/
def pyTrim (text : String) (maxChars : Nat) : String :=
  if text = "" then ""
  else
    let t := pyStrip text
    if t.length ≤ maxChars then t else String.mk (t.toList.take maxChars) ++ "…"

/-- A character matched by the `[a-zA-Z0-9\-]` class. -/
def isTokChar (c : Char) : Bool := c.isAlphanum || c = '-'

/-- Maximal runs of token characters (the effect of `re.findall`). -/
def runsAux : List Char → List Char → List (List Char)
  | [], acc => if acc.isEmpty then [] else [acc.reverse]
  | c :: cs, acc =>
    if isTokChar c then runsAux cs (c :: acc)
    else if acc.isEmpty then runsAux cs []
    else acc.reverse :: runsAux cs []

/-- Model of `_tokenize(query)`: lowercase, split on the character class, keep
tokens longer than 2 characters. -/
def pyTokenize (q : String) : List String :=
  ((runsAux (pyLower q).toList []).map (fun l => String.mk l)).filter (fun t => t.length > 2)

/-- Model of `extract_keywords(question)`. -/
def extract_keywords (question : String) : List String :=
  (pyTokenize question).filter (fun w => w ∉ STOPWORDS)

/-- First-seen deduplication of a keyword list (models iterating over
`set(keywords)`; any fixed enumeration order is sound for the claims,
which are about result sets). -/
def dedupAux (seen : List String) : List String → List String
  | [] => []
  | x :: xs => if x ∈ seen then dedupAux seen xs else x :: dedupAux (x :: seen) xs

def dedupKeepFirst (l : List String) : List String := dedupAux [] l

/-- Model of `_hit_ratio(text, tokens)`. -/
def hitFrac (text : String) (tokens : List String) : ℚ :=
  if text = "" then 0
  else
    let textL := pyLower text
    let hits : ℚ := ((tokens.filter (fun t => containsSubStr t textL)).length : ℚ)
    hits / (max 1 tokens.length : ℚ)

/-- The precedence bonus of `_score_clause`: `max(0, 10 - int(p)) / 100`,
with the `try/except` collapsing any failed conversion to `0`. -/
def precBonus (p : Option PVal) : ℚ :=
  match pvalToInt p with
  | some n => ((max 0 (10 - n) : ℤ) : ℚ) / 100
  | none => 0

/-- The tag-overlap term of `_score_clause`:
`len(set(tokens) & set of lowered tags) / 50`, and `0` unless `tags` is a
list and `tokens` is non-empty. -/
def tagOverlap (tags : Option TagsVal) (tokens : List String) : ℚ :=
  match tags with
  | some (.tlist l) =>
    if l = [] then 0
    else if tokens = [] then 0
    else (((dedupKeepFirst tokens).filter (fun t => (l.map pyLower).contains t)).length : ℚ) / 50
  | _ => 0

/-- Model of `_score_clause(clause, tokens, source_weight)`. -/
def score_clause (c : Clause) (tokens : List String) (source_weight : ℚ) : ℚ :=
  let ps := c.plain_summary.getD ""
  let ct := c.clause_text.getD ""
  let both := pyLower (ps ++ " " ++ ct)
  let token_cov := hitFrac both tokens
  source_weight + (0.6 : ℚ) * token_cov + (0.1 : ℚ) * precBonus c.precedence_level
    + (0.05 : ℚ) * tagOverlap c.tags tokens

/-- The weight-free part of the score: `score_clause` at weight `0`. -/
def scoreCore (c : Clause) (tokens : List String) : ℚ := score_clause c tokens 0

/-! ### Formatting (`format_clauses_for_prompt`)

The sort key is `int(c.get("precedence_level", 99))`: a missing key
defaults to `99`, but a present value goes through `int` with no
`try/except`, so a non-numeric value raises — modelled as `Except.error`. -/

def fmtKey (c : Clause) : Except Unit Int :=
  match c.precedence_level with
  | none => .ok 99
  | some v =>
    match pyToInt v with
    | some n => .ok n
    | none => .error ()

/-- Ascending, stable comparison used by `sorted(..., key=...)`. -/
def ascKey (a b : Int × Clause) : Prop := a.1 ≤ b.1

instance : DecidableRel ascKey := fun a b => inferInstanceAs (Decidable (a.1 ≤ b.1))

instance : IsTotal (Int × Clause) ascKey := ⟨fun a b => Int.le_total a.1 b.1⟩

instance : IsTrans (Int × Clause) ascKey := ⟨fun _ _ _ h1 h2 => le_trans h1 h2⟩

/-- Sort clauses by precedence key; any raising key aborts the sort. -/
def sortByPrec (cs : List Clause) : Except Unit (List Clause) := do
  let keyed ← cs.mapM (fun c => (fmtKey c).map (fun k => (k, c)))
  pure ((List.insertionSort ascKey keyed).map (fun p => p.2))

/-- The excerpt shown in slot `idx` (1-based): the full clause text,
trimmed, only in the first `INCLUDE_FULL_TEXT_TOP_N` slots and only when
the text is non-empty. -/
def slotShown (idx : Nat) (c : Clause) : String :=
  let clause_text_full := c.clause_text.getD ""
  if clause_text_full ≠ "" ∧ idx ≤ INCLUDE_FULL_TEXT_TOP_N then
    pyTrim clause_text_full INCLUDE_FULL_TEXT_MAX_CHARS
  else ""

/-- One formatted entry of `format_clauses_for_prompt`. -/
def entryFor (idx : Nat) (c : Clause) : String :=
  let citation := c.citation.getD ("Clause " ++ toString idx)
  let link := c.link.getD ""
  let summary := c.plain_summary.getD "No summary provided."
  let source := c.match_source.getD "Unknown"
  let clause_id := c.clause_id.getD ""
  let document := c.document.getD "Unknown"
  let shown := slotShown idx c
  let linkHtml :=
    if citation ≠ "" ∧ link ≠ "" then
      "<a href=\"" ++ link ++ "\" target=\"_blank\" rel=\"noopener noreferrer\">"
        ++ citation ++ "</a>"
    else citation
  let base :=
    "<b>" ++ toString idx ++ ". <strong>Summary</strong>: According to " ++ linkHtml
      ++ ", " ++ summary ++ ".</b><br>"
      ++ "<strong>Match Source</strong>: " ++ source ++ " • "
      ++ "<code>" ++ document ++ "</code> • "
      ++ "<strong>Reviewer ID</strong>: <code>" ++ clause_id ++ "</code><br>"
  if shown ≠ "" then
    base ++ "<details><summary>View Full Clause Text</summary><pre>" ++ shown
      ++ "</pre></details>"
  else base

/-- Walks `enumerate(sorted_clauses, 1)` over the entry builder. -/
def enumEntries (i : Nat) : List Clause → List String
  | [] => []
  | c :: rest => entryFor i c :: enumEntries (i + 1) rest

/-- Model of `format_clauses_for_prompt(clauses)`. -/
def format_clauses_for_prompt (cs : List Clause) : Except Unit String := do
  let sortedC ← sortByPrec cs
  pure (String.intercalate "<br><br>" (enumEntries 1 sortedC))

/-! ### GPT prompt (`build_gpt_prompt`) -/

def build_gpt_prompt (question clause_text : String) (no_matches : Bool) : String :=
  let fallback_msg :=
    if no_matches then
      "⚠️ There were no direct matches to this question. Below are general HOA rules that might still help you respond.<br><br>"
    else ""
  "You are an HOA policy assistant. Use both the clause summaries and original clause texts to answer clearly.\n\nResident Question:\n"
    ++ question ++ "\n\n" ++ fallback_msg ++ "\nRelevant Clauses:\n" ++ clause_text
    ++ "\n\nGuidelines:\n1. Summarize each relevant clause (use both summary and key clause text).\n2. Clearly state if the rules allow or prohibit the activity (e.g., Airbnb).\n3. If unclear, recommend checking with the ARC.\n4. Close with: “If you have any other questions, feel free to ask!”\n\nUse HTML for citations like this: <a href=\"link\" target=\"_blank\">Art. VI</a>\n---\n\nFinal Answer:\n"

/-! ### Markdown-link rewrite (`re.sub` with pattern
`\[(.*?)\] \((.*?)\)`, lazy groups that cannot cross a newline) -/

/-- Split at the first occurrence of `stop`; `none` if a newline comes
first or `stop` is absent. -/
def takeUntil (stop : Char) : List Char → Option (List Char × List Char)
  | [] => none
  | x :: xs =>
    if x = stop then some ([], xs)
    else if x = '\n' then none
    else (takeUntil stop xs).map (fun p => (x :: p.1, p.2))

/-- Try to match the link pattern at the head of the text; on success,
return the replacement and the rest of the text. -/
def linkAt : List Char → Option (List Char × List Char)
  | '[' :: rest =>
    match takeUntil ']' rest with
    | some (g1, rest2) =>
      match rest2 with
      | ' ' :: '(' :: rest3 =>
        match takeUntil ')' rest3 with
        | some (g2, rest4) => some (g1 ++ ' ' :: g2, rest4)
        | none => none
      | _ => none
    | none => none
  | _ => none

/-- Fueled left-to-right scan performing the substitution. -/
def subLinksAux : Nat → List Char → List Char
  | _, [] => []
  | 0, l => l
  | fuel + 1, x :: xs =>
    match linkAt (x :: xs) with
    | some (rep, rest) => rep ++ subLinksAux fuel rest
    | none => x :: subLinksAux fuel xs

/-- Model of `re.sub` with the link pattern on the final answer. -/
def regexSubLinks (s : String) : String :=
  String.mk (subLinksAux s.toList.length s.toList)

/-! ### Provenance tagging

Both retrieval legs and the soft-fallback leg run the same in-place
annotation: `clause["match_source"] = src` and
`clause["clause_id"] = clause.get("clause_id") or clause.get("id")`. -/

def tagClause (src : String) (c : Clause) : Clause :=
  { c with match_source := some src, clause_id := pyOr c.clause_id c.id }

def tagClauses (src : String) (l : List Clause) : List Clause := l.map (tagClause src)

/-- The deduplication key: `c.get("clause_id") or c.get("id")`. -/
def cidOf (c : Clause) : Option String := pyOr c.clause_id c.id

/-! ### Store-level query semantics (keyword leg, `fetch_matching_clauses`)

The relational store is modelled as a list of rows in table order.
`ILIKE '%pat%'` is case-insensitive substring match; a SQL `NULL` column
never matches.  `contains` is array containment; `eq` is equality. -/

def ilikeField (field : Clause → Option String) (pat : String) (c : Clause) : Bool :=
  match field c with
  | none => false
  | some s => containsSubStr (pyLower pat) (pyLower s)

def tagsContain (req : List String) (c : Clause) : Bool :=
  match c.tags with
  | some (.tlist l) => req.all (fun t => l.contains t)
  | _ => false

/-- The optional filter record of `fetch_matching_clauses`; `[]` and
falsy strings mean the filter is absent (Python truthiness). -/
structure Filters where
  ftags : List String
  fstructure : Option String
  fconcern : Option String
deriving DecidableEq

def noFilters : Filters := { ftags := [], fstructure := none, fconcern := none }

def applyFilters (f : Filters) (c : Clause) : Bool :=
  (if f.ftags ≠ [] then tagsContain f.ftags c else true)
    && (if optTruthy f.fstructure then c.structure_type == f.fstructure else true)
    && (if optTruthy f.fconcern then c.concern_level == f.fconcern else true)

/-- The substring patterns of the keyword leg: the deduplicated keyword
set, or the whole question when no keywords survive extraction. -/
def kwPatterns (keywords : List String) (question : String) : List String :=
  if keywords = [] then [question] else dedupKeepFirst keywords

/-- A row matches the disjunctive `or_` filter when some pattern matches
`plain_summary` or `clause_text`. -/
def kwOrMatch (pats : List String) (c : Clause) : Bool :=
  pats.any (fun k => ilikeField (fun x => x.plain_summary) k c
    || ilikeField (fun x => x.clause_text) k c)

/-- The primary keyword-leg query: one disjunctive-filter query with the
optional filters applied and a cap of 10 rows. -/
def disjQuery (store : List Clause) (keywords : List String) (question : String)
    (f : Filters) : List Clause :=
  (store.filter (fun c => kwOrMatch (kwPatterns keywords question) c
    && applyFilters f c)).take 10

/-- One degraded sub-query: substring match on a single field, cap 10. -/
def fieldQuery (store : List Clause) (field : Clause → Option String)
    (pat : String) : List Clause :=
  (store.filter (ilikeField field pat)).take 10

/-- The degraded path's chunk list: per pattern, a `plain_summary`
sub-query then a `clause_text` sub-query, concatenated. -/
def degradedChunks (store : List Clause) : List String → List Clause
  | [] => []
  | k :: rest =>
    fieldQuery store (fun x => x.plain_summary) k
      ++ fieldQuery store (fun x => x.clause_text) k
      ++ degradedChunks store rest

/-- First-seen merge by deduplication key over the concatenated chunks. -/
def mergeFirstSeen (seen : List (Option String)) : List Clause → List Clause
  | [] => []
  | c :: rest =>
    if cidOf c ∈ seen then mergeFirstSeen seen rest
    else c :: mergeFirstSeen (cidOf c :: seen) rest

/-- The degraded keyword-leg path (the `except` branch): one substring
query per pattern per field, merged by first-seen identifier.  It applies
no optional filters and no overall cap. -/
def degradedQuery (store : List Clause) (keywords : List String)
    (question : String) : List Clause :=
  mergeFirstSeen [] (degradedChunks store (kwPatterns keywords question))

/-! ### Soft fallback (`fetch_soft_fallback_clauses`) -/

def general_tags : List String := ["rental", "lease", "guest house", "tenant"]

/-- The synthetic clause injected when the generic-tags query is empty. -/
def injectedFallbackClause : Clause :=
  { emptyClause with
    precedence_level := some (.vstr "9"),
    plain_summary := some "Please check your HOA documents or ARC for specific rental rules.",
    citation := some "General Guideline",
    link := some "",
    document := some "Default Fallback",
    match_source := some "Injected Fallback",
    clause_id := some "FALLBACK_GENERAL",
    clause_text := some "" }

/-- The tail of `fetch_soft_fallback_clauses` applied to the rows the
generic-tags query returned. -/
def fetch_soft_fallback_pure (rows : List Clause) : List Clause :=
  let fallback_data := tagClauses "General Soft Fallback" rows
  if fallback_data = [] then [injectedFallbackClause] else fallback_data

/-- Model of `fetch_soft_fallback_clauses()` over an abstract store. -/
def fetch_soft_fallback_clauses (store : List Clause) : List Clause :=
  fetch_soft_fallback_pure ((store.filter (tagsContain general_tags)).take 5)

/-! ### Merge + score + dedupe (step 3 of `fetch_matching_clauses`)

Python's `scored.sort(key=lambda x: x[0], reverse=True)` is a stable
descending sort; its unique stable result is `List.insertionSort` with
the reflexive descending comparison below. -/

def descScore (a b : ℚ × Clause) : Prop := b.1 ≤ a.1

instance : DecidableRel descScore := fun a b => inferInstanceAs (Decidable (b.1 ≤ a.1))

instance : IsTotal (ℚ × Clause) descScore := ⟨fun a b => le_total b.1 a.1⟩

instance : IsTrans (ℚ × Clause) descScore := ⟨fun _ _ _ h1 h2 => le_trans h2 h1⟩

/-- The scored concatenation: semantic candidates at weight 1.0 first,
keyword candidates at weight 0.7 after. -/
def scoredList (vec fb : List Clause) (tokens : List String) : List (ℚ × Clause) :=
  vec.map (fun c => (score_clause c tokens 1, c))
    ++ fb.map (fun c => (score_clause c tokens (0.7 : ℚ), c))

/-- The stable descending sort of the scored concatenation. -/
def rankedList (vec fb : List Clause) (tokens : List String) : List (ℚ × Clause) :=
  List.insertionSort descScore (scoredList vec fb tokens)

/-- The selection walk: keep the first occurrence of each deduplication
key, stop once 5 clauses are collected. -/
def selectLoop : List (Option String) → List Clause → List (ℚ × Clause) → List Clause
  | _, top, [] => top
  | seen, top, (_, c) :: rest =>
    if cidOf c ∈ seen then
      if top.length ≥ 5 then top else selectLoop seen top rest
    else
      if (top ++ [c]).length ≥ 5 then top ++ [c]
      else selectLoop (cidOf c :: seen) (top ++ [c]) rest

/-- Steps 1-tagging and 3 of `fetch_matching_clauses`, applied to the raw
rows the two legs returned: tag provenance and identifiers, merge, score,
sort descending, deduplicate, truncate to 5. -/
def fetchStep3 (vecRaw fbRaw : List Clause) (tokens : List String) : List Clause :=
  let vec := tagClauses "Vector Match" vecRaw
  let fb := tagClauses "Keyword Fallback" fbRaw
  selectLoop [] [] (rankedList vec fb tokens)

/-! ### Control-flow model of one request

Each external collaborator is an oracle giving this request's outcome of
each call; `Except.error` is a raised exception.  Every function returns
its result together with the trace of external calls it issued, in order. -/

inductive ExtCall where
  | embedCall : ExtCall
  | semSearchCall : ExtCall
  | disjStoreCall : ExtCall
  | ilikeStoreCall : String → Nat → ExtCall
  | softStoreCall : ExtCall
  | generateCall : ExtCall
deriving DecidableEq

structure Oracles where
  embedR : Except Unit (List ℚ)
  semR : Except Unit (List Clause)
  disjR : Except Unit (List Clause)
  ilikeR : String → Nat → Except Unit (List Clause)
  softR : Except Unit (List Clause)
  genR : String → Except Unit String

/-- Runs the degraded per-keyword sub-queries left to right; the first
raised exception aborts (it is outside any `try`). -/
def runDegraded (o : Oracles) : List String → Except Unit (List Clause) × List ExtCall
  | [] => (.ok [], [])
  | k :: rest =>
    match o.ilikeR k 0 with
    | .error e => (.error e, [.ilikeStoreCall k 0])
    | .ok c1 =>
      match o.ilikeR k 1 with
      | .error e => (.error e, [.ilikeStoreCall k 0, .ilikeStoreCall k 1])
      | .ok c2 =>
        match runDegraded o rest with
        | (.error e, calls) =>
          (.error e, .ilikeStoreCall k 0 :: .ilikeStoreCall k 1 :: calls)
        | (.ok cs, calls) =>
          (.ok (c1 ++ c2 ++ cs), .ilikeStoreCall k 0 :: .ilikeStoreCall k 1 :: calls)

/-- The keyword leg's control flow: the disjunctive query inside `try`;
on failure the degraded path runs and merges by first-seen identifier. -/
def keywordLegE (o : Oracles) (question : String) : Except Unit (List Clause) × List ExtCall :=
  match o.disjR with
  | .ok rows => (.ok rows, [.disjStoreCall])
  | .error _ =>
    let pats := kwPatterns (extract_keywords question) question
    match runDegraded o pats with
    | (.error e, calls) => (.error e, .disjStoreCall :: calls)
    | (.ok rows, calls) => (.ok (mergeFirstSeen [] rows), .disjStoreCall :: calls)

/-- Control-flow model of `fetch_matching_clauses(question, ...)`. -/
def fetchE (o : Oracles) (question : String) : Except Unit (List Clause) × List ExtCall :=
  match o.embedR with
  | .error e => (.error e, [.embedCall])
  | .ok _ =>
    match o.semR with
    | .error e => (.error e, [.embedCall, .semSearchCall])
    | .ok vecRaw =>
      match keywordLegE o question with
      | (.error e, calls) => (.error e, .embedCall :: .semSearchCall :: calls)
      | (.ok fbRaw, calls) =>
        (.ok (fetchStep3 vecRaw fbRaw (pyTokenize question)),
          .embedCall :: .semSearchCall :: calls)

/-- The two shapes `answer_question` can return: a bare string, or the
structured record (question, answer, clauses, mode, format). -/
inductive AnswerOut where
  | outStr : String → AnswerOut
  | outRec : String → String → List Clause → String → String → AnswerOut
deriving DecidableEq

/-- Control-flow model of `answer_question(question, ...)`. -/
def answer_questionE (o : Oracles) (choice : Nat) (question : String)
    (mode output_format : String) : Except Unit AnswerOut × List ExtCall :=
  match check_instant_whimsy (pyStrip (pyLower question)) choice with
  | some r => (.ok (.outStr r), [])
  | none =>
    match fetchE o question with
    | (.error e, calls) => (.error e, calls)
    | (.ok cl0, calls) =>
      let softPart : Except Unit (List Clause × Bool) × List ExtCall :=
        if cl0 = [] then
          match o.softR with
          | .error e => (.error e, [.softStoreCall])
          | .ok rows => (.ok (fetch_soft_fallback_pure rows, true), [.softStoreCall])
        else (.ok (cl0, false), [])
      match softPart with
      | (.error e, calls2) => (.error e, calls ++ calls2)
      | (.ok (clauses, no_matches), calls2) =>
        match format_clauses_for_prompt clauses with
        | .error e => (.error e, calls ++ calls2)
        | .ok clause_text =>
          let prompt := build_gpt_prompt question clause_text no_matches
          match o.genR prompt with
          | .error e => (.error e, calls ++ calls2 ++ [.generateCall])
          | .ok raw =>
            let final := regexSubLinks raw
            if output_format = "json" then
              (.ok (.outRec question final clauses mode "json"),
                calls ++ calls2 ++ [.generateCall])
            else
              (.ok (.outStr (final ++ "<br><br>" ++ clause_text)),
                calls ++ calls2 ++ [.generateCall])

/-- The `/ask` endpoint's surfacing of failures (`app.py`): any raised
exception becomes a generic 500 response, success a 200. -/
def askStatus (o : Oracles) (choice : Nat) (question mode output_format : String) : Nat :=
  match (answer_questionE o choice question mode output_format).1 with
  | .error _ => 500
  | .ok _ => 200

/-! ## Helper lemmas -/

theorem selectLoop_length :
    ∀ (l : List (ℚ × Clause)) (seen : List (Option String)) (top : List Clause),
      top.length < 5 → (selectLoop seen top l).length ≤ 5 := by
  intro l
  induction l with
  | nil => intro seen top h; simpa [selectLoop] using Nat.le_of_lt h
  | cons p rest ih =>
    intro seen top h
    obtain ⟨s, c⟩ := p
    simp only [selectLoop]
    by_cases hseen : cidOf c ∈ seen
    · rw [if_pos hseen, if_neg (by omega)]
      exact ih seen top h
    · rw [if_neg hseen]
      by_cases hlen : (top ++ [c]).length ≥ 5
      · rw [if_pos hlen]
        simp only [List.length_append, List.length_singleton]
        omega
      · rw [if_neg hlen]
        exact ih _ _ (by simp only [List.length_append, List.length_singleton] at hlen ⊢; omega)

theorem selectLoop_pairwise :
    ∀ (l : List (ℚ × Clause)) (seen : List (Option String)) (top : List Clause),
      top.Pairwise (fun a b => cidOf a ≠ cidOf b) →
      (∀ c ∈ top, cidOf c ∈ seen) →
      (selectLoop seen top l).Pairwise (fun a b => cidOf a ≠ cidOf b) := by
  intro l
  induction l with
  | nil => intro seen top hp _; simpa [selectLoop] using hp
  | cons p rest ih =>
    intro seen top hp hmem
    obtain ⟨s, c⟩ := p
    simp only [selectLoop]
    by_cases hseen : cidOf c ∈ seen
    · rw [if_pos hseen]
      by_cases hlen : top.length ≥ 5
      · rw [if_pos hlen]; exact hp
      · rw [if_neg hlen]; exact ih seen top hp hmem
    · rw [if_neg hseen]
      have hp' : (top ++ [c]).Pairwise (fun a b => cidOf a ≠ cidOf b) := by
        rw [List.pairwise_append]
        refine ⟨hp, List.pairwise_singleton _ _, ?_⟩
        intro a ha b hb
        rw [List.mem_singleton] at hb
        subst hb
        intro hcontra
        exact hseen (hcontra ▸ hmem a ha)
      have hmem' : ∀ x ∈ top ++ [c], cidOf x ∈ cidOf c :: seen := by
        intro x hx
        rcases List.mem_append.mp hx with hx | hx
        · exact List.mem_cons_of_mem _ (hmem x hx)
        · rw [List.mem_singleton] at hx; subst hx; exact List.mem_cons_self _ _
      by_cases hlen : (top ++ [c]).length ≥ 5
      · rw [if_pos hlen]; exact hp'
      · rw [if_neg hlen]; exact ih _ _ hp' hmem'

theorem selectLoop_mem :
    ∀ (l : List (ℚ × Clause)) (seen : List (Option String)) (top : List Clause) (c : Clause),
      c ∈ selectLoop seen top l →
      c ∈ top ∨ ∃ s pre post, l = pre ++ (s, c) :: post ∧ cidOf c ∉ seen ∧
        ∀ p ∈ pre, cidOf p.2 ≠ cidOf c := by
  intro l
  induction l with
  | nil => intro seen top c h; exact Or.inl (by simpa [selectLoop] using h)
  | cons p rest ih =>
    intro seen top c h
    obtain ⟨s0, c0⟩ := p
    simp only [selectLoop] at h
    by_cases hseen : cidOf c0 ∈ seen
    · rw [if_pos hseen] at h
      by_cases hlen : top.length ≥ 5
      · rw [if_pos hlen] at h; exact Or.inl h
      · rw [if_neg hlen] at h
        rcases ih seen top c h with h1 | ⟨s, pre, post, heq, hns, hpre⟩
        · exact Or.inl h1
        · refine Or.inr ⟨s, (s0, c0) :: pre, post, by rw [heq]; rfl, hns, ?_⟩
          intro q hq
          rcases List.mem_cons.mp hq with hq | hq
          · subst hq
            intro hcontra
            exact hns (hcontra ▸ hseen)
          · exact hpre q hq
    · rw [if_neg hseen] at h
      have hfromTop : c ∈ top ++ [c0] →
          c ∈ top ∨ ∃ s pre post, (s0, c0) :: rest = pre ++ (s, c) :: post ∧
            cidOf c ∉ seen ∧ ∀ p ∈ pre, cidOf p.2 ≠ cidOf c := by
        intro hx
        rcases List.mem_append.mp hx with hx | hx
        · exact Or.inl hx
        · rw [List.mem_singleton] at hx
          subst hx
          exact Or.inr ⟨s0, [], rest, rfl, hseen, by intro q hq; simp at hq⟩
      by_cases hlen : (top ++ [c0]).length ≥ 5
      · rw [if_pos hlen] at h
        exact hfromTop h
      · rw [if_neg hlen] at h
        rcases ih _ _ c h with h1 | ⟨s, pre, post, heq, hns, hpre⟩
        · exact hfromTop h1
        · have hne : cidOf c ≠ cidOf c0 := fun hcontra => hns (by rw [hcontra]; exact List.mem_cons_self _ _)
          have hns' : cidOf c ∉ seen := fun hcontra => hns (List.mem_cons_of_mem _ hcontra)
          refine Or.inr ⟨s, (s0, c0) :: pre, post, by rw [heq]; rfl, hns', ?_⟩
          intro q hq
          rcases List.mem_cons.mp hq with hq | hq
          · subst hq; exact fun hcontra => hne hcontra.symm
          · exact hpre q hq

theorem fetchStep3_def (v f : List Clause) (t : List String) :
    fetchStep3 v f t
      = selectLoop [] []
          (rankedList (tagClauses "Vector Match" v) (tagClauses "Keyword Fallback" f) t) := rfl

theorem rankedList_sorted (vec fb : List Clause) (tokens : List String) :
    List.Sorted descScore (rankedList vec fb tokens) :=
  List.sorted_insertionSort descScore _

/-- The first element of the input attaining the maximal score (ties go
to the earlier element); this is the head of the stable descending sort. -/
def firstMaxP : List (ℚ × Clause) → Option (ℚ × Clause)
  | [] => none
  | x :: xs =>
    match firstMaxP xs with
    | none => some x
    | some m => if m.1 ≤ x.1 then some x else some m

theorem insertionSort_head :
    ∀ l : List (ℚ × Clause), (List.insertionSort descScore l).head? = firstMaxP l := by
  intro l
  induction l with
  | nil => rfl
  | cons x xs ih =>
    rw [show List.insertionSort descScore (x :: xs)
        = List.orderedInsert descScore x (List.insertionSort descScore xs) from rfl]
    cases h : List.insertionSort descScore xs with
    | nil =>
      have hxs : xs = [] := by
        have hlen := (List.perm_insertionSort descScore xs).length_eq
        rw [h] at hlen
        exact List.length_eq_zero.mp hlen.symm
      subst hxs
      rfl
    | cons y ys =>
      have hy : firstMaxP xs = some y := by rw [← ih, h, List.head?_cons]
      simp only [firstMaxP, hy]
      by_cases hd : y.1 ≤ x.1
      · rw [show List.orderedInsert descScore x (y :: ys) = x :: y :: ys from by
          simp [List.orderedInsert, descScore, hd]]
        rw [if_pos hd, List.head?_cons]
      · rw [show List.orderedInsert descScore x (y :: ys)
            = y :: List.orderedInsert descScore x ys from by
          simp [List.orderedInsert, descScore, hd]]
        rw [if_neg hd, List.head?_cons]

theorem firstMaxP_mem :
    ∀ (l : List (ℚ × Clause)) (m : ℚ × Clause), firstMaxP l = some m → m ∈ l := by
  intro l
  induction l with
  | nil => intro m h; simp [firstMaxP] at h
  | cons x xs ih =>
    intro m h
    simp only [firstMaxP] at h
    cases hx : firstMaxP xs with
    | none =>
      rw [hx] at h
      simp only [Option.some.injEq] at h
      subst h
      exact List.mem_cons_self _ _
    | some y =>
      rw [hx] at h
      have h' : (if y.1 ≤ x.1 then some x else some y) = some m := h
      by_cases hd : y.1 ≤ x.1
      · rw [if_pos hd] at h'
        simp only [Option.some.injEq] at h'
        subst h'
        exact List.mem_cons_self _ _
      · rw [if_neg hd] at h'
        simp only [Option.some.injEq] at h'
        subst h'
        exact List.mem_cons_of_mem _ (ih y hx)

theorem firstMaxP_append_left :
    ∀ (l1 l2 : List (ℚ × Clause)) (a : ℚ × Clause),
      a ∈ l1 → (∀ b ∈ l1 ++ l2, b.1 ≤ a.1) →
      ∀ m, firstMaxP (l1 ++ l2) = some m → m ∈ l1 := by
  intro l1
  induction l1 with
  | nil => intro l2 a ha; simp at ha
  | cons x t ih =>
    intro l2 a ha hbound m hm
    rw [List.cons_append] at hm
    simp only [firstMaxP] at hm
    cases hr : firstMaxP (t ++ l2) with
    | none =>
      rw [hr] at hm
      simp only [Option.some.injEq] at hm
      subst hm
      exact List.mem_cons_self _ _
    | some m' =>
      rw [hr] at hm
      have hm' : (if m'.1 ≤ x.1 then some x else some m') = some m := hm
      by_cases hd : m'.1 ≤ x.1
      · rw [if_pos hd] at hm'
        simp only [Option.some.injEq] at hm'
        subst hm'
        exact List.mem_cons_self _ _
      · rw [if_neg hd] at hm'
        simp only [Option.some.injEq] at hm'
        subst hm'
        rcases List.mem_cons.mp ha with ha | ha
        · exfalso
          apply hd
          have hmem := firstMaxP_mem _ _ hr
          have hb2 := hbound m' (by
            rw [List.cons_append]
            exact List.mem_cons_of_mem _ hmem)
          rw [ha] at hb2
          exact hb2
        · have hbound' : ∀ b ∈ t ++ l2, b.1 ≤ a.1 := fun b hb =>
            hbound b (by rw [List.cons_append]; exact List.mem_cons_of_mem _ hb)
          exact List.mem_cons_of_mem _ (ih l2 a ha hbound' m' hr)

theorem score_clause_tag (s : String) (c : Clause) (tokens : List String) (w : ℚ) :
    score_clause (tagClause s c) tokens w = score_clause c tokens w := rfl

theorem score_clause_core (c : Clause) (tokens : List String) (w : ℚ) :
    score_clause c tokens w = w + scoreCore c tokens := by
  simp only [score_clause, scoreCore]
  ring

/-! ## Claims -/

/-- C1: for every question and every pair of candidate lists returned by
the two legs, the merged-scored-deduplicated selection of
`fetch_matching_clauses` has at most 5 entries, no two entries share a
deduplication key, and each kept entry is the first occurrence of its key
in the descending stable sort, hence the highest-scoring representative
of that key. -/
theorem C1_select_top_bounded_dedup (vecRaw fbRaw : List Clause) (tokens : List String) :
    (fetchStep3 vecRaw fbRaw tokens).length ≤ 5 ∧
    (fetchStep3 vecRaw fbRaw tokens).Pairwise (fun a b => cidOf a ≠ cidOf b) ∧
    ∀ c ∈ fetchStep3 vecRaw fbRaw tokens,
      ∃ s pre post,
        rankedList (tagClauses "Vector Match" vecRaw)
            (tagClauses "Keyword Fallback" fbRaw) tokens = pre ++ (s, c) :: post ∧
        (∀ p ∈ pre, cidOf p.2 ≠ cidOf c) ∧
        (∀ p ∈ rankedList (tagClauses "Vector Match" vecRaw)
            (tagClauses "Keyword Fallback" fbRaw) tokens,
          cidOf p.2 = cidOf c → p.1 ≤ s) := by
  rw [fetchStep3_def]
  refine ⟨selectLoop_length _ [] [] (by norm_num),
    selectLoop_pairwise _ [] [] List.Pairwise.nil (by intro c hc; simp at hc), ?_⟩
  intro c hc
  rcases selectLoop_mem _ [] [] c hc with h1 | ⟨s, pre, post, heq, _, hpre⟩
  · simp at h1
  · refine ⟨s, pre, post, heq, hpre, ?_⟩
    intro p hp hcid
    have hsorted := rankedList_sorted (tagClauses "Vector Match" vecRaw)
      (tagClauses "Keyword Fallback" fbRaw) tokens
    rw [heq] at hsorted hp
    rcases List.mem_append.mp hp with hp | hp
    · exact absurd hcid (hpre p hp)
    · rcases List.mem_cons.mp hp with hp | hp
      · subst hp; exact le_refl _
      · have h2 := (List.pairwise_append.mp hsorted).2.1
        exact (List.pairwise_cons.mp h2).1 p hp

/-- Witness for C1 at a concrete pair of candidate lists. -/
theorem C1_select_top_bounded_dedup_witness :
    (fetchStep3 [emptyClause] [{ emptyClause with clause_id := some "B" }] []).length ≤ 5 :=
  (C1_select_top_bounded_dedup [emptyClause] [{ emptyClause with clause_id := some "B" }] []).1

/-- C7: when both legs return candidates and no keyword candidate's
weight-free score part exceeds the best semantic candidate's by more than
the 0.3 source-weight gap (1.0 vs 0.7), the top-ranked item of the
merged, scored, stably descending-sorted list has semantic provenance
(`"Vector Match"`); ties resolve to semantic because semantic candidates
precede keyword candidates in the concatenation. -/
theorem C7_top_ranked_is_semantic (vecRaw fbRaw : List Clause) (tokens : List String)
    (v : Clause) (hv : v ∈ vecRaw)
    (hmax : ∀ v' ∈ vecRaw, scoreCore v' tokens ≤ scoreCore v tokens)
    (hgap : ∀ k ∈ fbRaw, scoreCore k tokens ≤ scoreCore v tokens + (0.3 : ℚ)) :
    ∀ p, (rankedList (tagClauses "Vector Match" vecRaw)
        (tagClauses "Keyword Fallback" fbRaw) tokens).head? = some p →
      p.2.match_source = some "Vector Match" := by
  intro p hp
  rw [rankedList, insertionSort_head] at hp
  have hsc : scoredList (tagClauses "Vector Match" vecRaw)
      (tagClauses "Keyword Fallback" fbRaw) tokens
      = (tagClauses "Vector Match" vecRaw).map (fun c => (score_clause c tokens 1, c))
        ++ (tagClauses "Keyword Fallback" fbRaw).map
            (fun c => (score_clause c tokens (0.7 : ℚ), c)) := rfl
  rw [hsc] at hp
  have ha : (score_clause (tagClause "Vector Match" v) tokens 1, tagClause "Vector Match" v)
      ∈ (tagClauses "Vector Match" vecRaw).map (fun c => (score_clause c tokens 1, c)) :=
    List.mem_map_of_mem _ (List.mem_map_of_mem _ hv)
  have hbound : ∀ b ∈ (tagClauses "Vector Match" vecRaw).map
        (fun c => (score_clause c tokens 1, c))
      ++ (tagClauses "Keyword Fallback" fbRaw).map
        (fun c => (score_clause c tokens (0.7 : ℚ), c)),
      b.1 ≤ (score_clause (tagClause "Vector Match" v) tokens 1,
        tagClause "Vector Match" v).1 := by
    intro b hb
    simp only
    rw [score_clause_tag, score_clause_core]
    rcases List.mem_append.mp hb with hb | hb
    · rcases List.mem_map.mp hb with ⟨c', hc', rfl⟩
      rcases List.mem_map.mp hc' with ⟨c0, hc0, rfl⟩
      simp only
      rw [score_clause_tag, score_clause_core]
      have := hmax c0 hc0
      linarith
    · rcases List.mem_map.mp hb with ⟨c', hc', rfl⟩
      rcases List.mem_map.mp hc' with ⟨c0, hc0, rfl⟩
      simp only
      rw [score_clause_tag, score_clause_core]
      have := hgap c0 hc0
      linarith
  have hmem := firstMaxP_append_left _ _ _ ha hbound p hp
  rcases List.mem_map.mp hmem with ⟨c', hc', rfl⟩
  rcases List.mem_map.mp hc' with ⟨c0, hc0, rfl⟩
  rfl

theorem insertionSort_pair_head (a b : ℚ × Clause) (h : descScore a b) :
    (List.insertionSort descScore [a, b]).head? = some a := by
  show (List.orderedInsert descScore a (List.insertionSort descScore [b])).head? = some a
  rw [show List.insertionSort descScore [b] = [b] from rfl]
  show (if descScore a b then a :: [b] else b :: List.orderedInsert descScore a []).head?
    = some a
  rw [if_pos h]
  rfl

/-- Witness for C7 at concrete one-element legs. -/
theorem C7_top_ranked_is_semantic_witness :
    (tagClause "Vector Match" emptyClause).match_source = some "Vector Match" := by
  have hcond : descScore
      (score_clause (tagClause "Vector Match" emptyClause) [] 1,
        tagClause "Vector Match" emptyClause)
      (score_clause (tagClause "Keyword Fallback" emptyClause) [] (0.7 : ℚ),
        tagClause "Keyword Fallback" emptyClause) := by
    show score_clause (tagClause "Keyword Fallback" emptyClause) [] (0.7 : ℚ)
        ≤ score_clause (tagClause "Vector Match" emptyClause) [] 1
    rw [score_clause_tag, score_clause_tag, score_clause_core, score_clause_core]
    linarith
  exact C7_top_ranked_is_semantic [emptyClause] [emptyClause] [] emptyClause
    (List.mem_singleton.mpr rfl)
    (fun v' hv' => by rw [List.mem_singleton.mp hv'])
    (fun k hk => by rw [List.mem_singleton.mp hk]; linarith)
    (score_clause (tagClause "Vector Match" emptyClause) [] 1,
      tagClause "Vector Match" emptyClause)
    (insertionSort_pair_head _ _ hcond)

/-- C2 counterexample: a clause whose `precedence_level` is present but
non-numeric makes the formatting operation raise (the sort key calls
`int` with no `try/except`), contrary to the claim that defaulting always
prevents an exception. -/
theorem C2_counterexample :
    format_clauses_for_prompt [{ emptyClause with precedence_level := some (.vstr "high") }]
      = .error () := rfl

/-- C2 (amended): in the scoring operation a missing or non-numeric
`precedence_level` contributes bonus 0 and never raises; in the
clause-formatting operation only a missing `precedence_level` is
defaulted (to 99), while a present non-numeric value raises. -/
theorem C2_amended_precedence_defaulting (c : Clause) :
    (pvalToInt c.precedence_level = none → precBonus c.precedence_level = 0) ∧
    (c.precedence_level = none → fmtKey c = .ok 99) ∧
    (∀ v, c.precedence_level = some v → pyToInt v = none → fmtKey c = .error ()) := by
  refine ⟨?_, ?_, ?_⟩
  · intro h; simp [precBonus, h]
  · intro h; simp [fmtKey, h]
  · intro v hv hnone; simp [fmtKey, hv, hnone]

/-- Witness for C2 (amended) at concrete clauses. -/
theorem C2_amended_precedence_defaulting_witness :
    precBonus (some PVal.vnull) = 0 ∧ fmtKey emptyClause = .ok 99 ∧
      fmtKey { emptyClause with precedence_level := some (.vstr "high") } = .error () :=
  ⟨(C2_amended_precedence_defaulting { emptyClause with precedence_level := some .vnull }).1
      rfl,
   (C2_amended_precedence_defaulting emptyClause).2.1 rfl,
   (C2_amended_precedence_defaulting
      { emptyClause with precedence_level := some (.vstr "high") }).2.2 _ rfl rfl⟩

/-- C3: for every store state, `fetch_soft_fallback_clauses` returns a
non-empty sequence; when the generic-tags query returns nothing it
returns exactly one synthetic clause with provenance "Injected Fallback"
and fixed placeholder content. -/
theorem C3_soft_fallback_nonempty (store : List Clause) :
    fetch_soft_fallback_clauses store ≠ [] ∧
    ((store.filter (tagsContain general_tags)).take 5 = [] →
      fetch_soft_fallback_clauses store = [injectedFallbackClause]) ∧
    injectedFallbackClause.match_source = some "Injected Fallback" := by
  refine ⟨?_, ?_, rfl⟩
  · simp only [fetch_soft_fallback_clauses, fetch_soft_fallback_pure]
    split
    · simp
    · rename_i hne
      exact hne
  · intro h
    simp [fetch_soft_fallback_clauses, fetch_soft_fallback_pure, h, tagClauses]

/-- Witness for C3 at the empty store. -/
theorem C3_soft_fallback_nonempty_witness :
    fetch_soft_fallback_clauses [] = [injectedFallbackClause] :=
  (C3_soft_fallback_nonempty []).2.1 rfl

/-- C5 counterexample: a record with neither `clause_id` nor `id` keeps a
null `clause_id` after provenance tagging, contrary to the claimed
non-null invariant. -/
theorem C5_counterexample :
    (tagClause "Vector Match" emptyClause).clause_id = none := rfl

/-- C5 (amended): after provenance tagging, `clause_id` is the record's
original `clause_id` when that is truthy, else the record's generic row
identifier `id`; it is non-null provided the record has a truthy
`clause_id` or a non-null `id` (a record lacking both keeps null). -/
theorem C5_amended_clause_id_fallback (s : String) (c : Clause) :
    (tagClause s c).clause_id = (if strTruthy c.clause_id then c.clause_id else c.id) ∧
    (tagClause s c).match_source = some s ∧
    ((strTruthy c.clause_id = true ∨ c.id ≠ none) → (tagClause s c).clause_id ≠ none) := by
  refine ⟨rfl, rfl, ?_⟩
  intro h
  show pyOr c.clause_id c.id ≠ none
  unfold pyOr
  cases ht : strTruthy c.clause_id with
  | true =>
    simp only [ht, if_true]
    intro hnone
    rw [hnone] at ht
    simp [strTruthy] at ht
  | false =>
    simp only [ht, Bool.false_eq_true, if_false]
    rcases h with h | h
    · rw [ht] at h; exact absurd h (by simp)
    · exact h

/-- Witness for C5 (amended) at a concrete record. -/
theorem C5_amended_clause_id_fallback_witness :
    (tagClause "Keyword Fallback" { emptyClause with id := some "row-1" }).clause_id ≠ none :=
  (C5_amended_clause_id_fallback "Keyword Fallback"
    { emptyClause with id := some "row-1" }).2.2 (Or.inr (by simp))

/-- Concrete 800-character clause text with a leading space. -/
def t800 : String := String.mk (' ' :: List.replicate 799 'a')

/-- Concrete 1500-character clause text with no surrounding whitespace. -/
def t1500 : String := String.mk (List.replicate 1500 'a')

theorem dropWhile_replicate_off (n : Nat) (a : Char) (h : isPySpace a = false) :
    (List.replicate n a).dropWhile isPySpace = List.replicate n a := by
  cases n with
  | zero => rfl
  | succ k =>
    rw [List.replicate_succ, List.dropWhile_cons, h]
    rw [← List.replicate_succ]
    rfl

theorem stripL_replicate_a (n : Nat) :
    stripL (List.replicate n 'a') = List.replicate n 'a' := by
  unfold stripL
  rw [dropWhile_replicate_off n 'a' rfl, List.reverse_replicate,
    dropWhile_replicate_off n 'a' rfl, List.reverse_replicate]

theorem stripL_t800 :
    stripL (' ' :: List.replicate 799 'a') = List.replicate 799 'a' := by
  unfold stripL
  rw [List.dropWhile_cons]
  rw [show isPySpace ' ' = true from rfl]
  simp only [if_true]
  rw [dropWhile_replicate_off 799 'a' rfl, List.reverse_replicate,
    dropWhile_replicate_off 799 'a' rfl, List.reverse_replicate]

theorem t800_length : t800.length = 800 := by
  show (' ' :: List.replicate 799 'a').length = 800
  rw [List.length_cons, List.length_replicate]

theorem t800_ne_empty : t800 ≠ "" := by
  intro h
  have h2 : (' ' :: List.replicate 799 'a') = [] := congrArg String.toList h
  exact absurd h2 (List.cons_ne_nil _ _)

theorem t1500_length : t1500.length = 1500 := by
  show (List.replicate 1500 'a').length = 1500
  rw [List.length_replicate]

theorem pyStrip_t1500 : pyStrip t1500 = t1500 := by
  show String.mk (stripL (List.replicate 1500 'a')) = t1500
  rw [stripL_replicate_a]
  rfl

/-- C8 counterexample: an 800-character `clause_text` with a leading
space is not rendered unmodified in a top-2 slot — `_trim` strips it
first. -/
theorem C8_counterexample :
    t800.length = 800 ∧
    slotShown 1 { emptyClause with clause_text := some t800 } ≠ t800 := by
  refine ⟨t800_length, ?_⟩
  have hshown : slotShown 1 { emptyClause with clause_text := some t800 }
      = String.mk (List.replicate 799 'a') := by
    simp only [slotShown, Option.getD_some]
    rw [if_pos ⟨t800_ne_empty, by norm_num [INCLUDE_FULL_TEXT_TOP_N]⟩]
    unfold pyTrim
    rw [if_neg t800_ne_empty]
    have hps : pyStrip t800 = String.mk (List.replicate 799 'a') := by
      show String.mk (stripL (' ' :: List.replicate 799 'a'))
        = String.mk (List.replicate 799 'a')
      rw [stripL_t800]
    simp only [hps]
    rw [if_pos (by
      show (List.replicate 799 'a').length ≤ INCLUDE_FULL_TEXT_MAX_CHARS
      rw [List.length_replicate]
      norm_num [INCLUDE_FULL_TEXT_MAX_CHARS])]
  rw [hshown]
  intro hcontra
  have hlen := congrArg String.length hcontra
  rw [t800_length] at hlen
  rw [show (String.mk (List.replicate 799 'a')).length = 799 from by
    show (List.replicate 799 'a').length = 799
    rw [List.length_replicate]] at hlen
  omega

theorem pyTrim_long (t : String) (m : Nat) (hne : t ≠ "") (hstrip : pyStrip t = t)
    (h : ¬ t.length ≤ m) : pyTrim t m = String.mk (t.toList.take m) ++ "…" := by
  unfold pyTrim
  rw [if_neg hne]
  simp only [hstrip]
  rw [if_neg h]

theorem pyTrim_short (t : String) (m : Nat) (hne : t ≠ "") (hstrip : pyStrip t = t)
    (h : t.length ≤ m) : pyTrim t m = t := by
  unfold pyTrim
  rw [if_neg hne]
  simp only [hstrip]
  rw [if_pos h]

/-- C8 (amended): for a clause rendered in one of the first 2 formatted
slots whose `clause_text` equals its own stripped form, a 1500-character
text is rendered as its first 1200 characters plus the truncation marker,
and an 800-character text is rendered unmodified.  (The original claim
fails for texts with surrounding whitespace, which `_trim` strips.) -/
theorem C8_amended_truncation (idx : Nat) (t : String) (c : Clause)
    (hc : c.clause_text = some t) (hidx : idx ≤ INCLUDE_FULL_TEXT_TOP_N)
    (hstrip : pyStrip t = t) :
    (t.length = 1500 → slotShown idx c = String.mk (t.toList.take 1200) ++ "…") ∧
    (t.length = 800 → slotShown idx c = t) := by
  constructor
  · intro hlen
    have hne : t ≠ "" := by
      intro hcontra
      rw [hcontra] at hlen
      simp [String.length] at hlen
    simp only [slotShown, hc, Option.getD_some]
    rw [if_pos ⟨hne, hidx⟩]
    exact pyTrim_long t _ hne hstrip (by rw [hlen]; norm_num [INCLUDE_FULL_TEXT_MAX_CHARS])
  · intro hlen
    have hne : t ≠ "" := by
      intro hcontra
      rw [hcontra] at hlen
      simp [String.length] at hlen
    simp only [slotShown, hc, Option.getD_some]
    rw [if_pos ⟨hne, hidx⟩]
    exact pyTrim_short t _ hne hstrip (by rw [hlen]; norm_num [INCLUDE_FULL_TEXT_MAX_CHARS])

/-- Witness for C8 (amended) on a concrete 1500-character text. -/
theorem C8_amended_truncation_witness :
    slotShown 2 { emptyClause with clause_text := some t1500 }
      = String.mk (t1500.toList.take 1200) ++ "…" :=
  (C8_amended_truncation 2 t1500 { emptyClause with clause_text := some t1500 }
    rfl (by norm_num [INCLUDE_FULL_TEXT_TOP_N]) pyStrip_t1500).1 t1500_length

theorem getD_mem : ∀ (l : List String) (n : Nat), n < l.length → l.getD n "" ∈ l := by
  intro l
  induction l with
  | nil => intro n h; simp at h
  | cons x xs ih =>
    intro n h
    cases n with
    | zero => simp [List.getD_cons_zero]
    | succ k =>
      rw [List.getD_cons_succ]
      exact List.mem_cons_of_mem _ (ih k (by simpa using h))

theorem pyChoice_mem (choice : Nat) (l : List String) (h : l ≠ []) : pyChoice choice l ∈ l := by
  unfold pyChoice
  exact getD_mem l _ (Nat.mod_lt _ (List.length_pos.mpr h))

/-- C9: for the question exactly "who made you", `answer_question`
returns one of the fixed canned creator-attribution responses and issues
no external call at all (no embedding, semantic-search, or store call). -/
theorem C9_whimsy_no_retrieval (o : Oracles) (choice : Nat) (mode output_format : String) :
    answer_questionE o choice "who made you" mode output_format
      = (.ok (.outStr (pyChoice choice creatorResponses)), []) ∧
    pyChoice choice creatorResponses ∈ creatorResponses := by
  constructor
  · have hc : check_instant_whimsy (pyStrip (pyLower "who made you")) choice
        = some (pyChoice choice creatorResponses) := by
      have hany : creator_keywords.any
          (fun k => containsSubStr k (pyStrip (pyLower "who made you"))) = true := by decide
      unfold check_instant_whimsy
      rw [if_pos hany]
    unfold answer_questionE
    rw [hc]
  · exact pyChoice_mem choice creatorResponses (by decide)

/-- C10: whenever the whimsy check fires, `answer_question` returns a
bare string and an empty call trace regardless of the requested
`output_format` (including "json"); the structured record is produced
only on the non-whimsy path. -/
theorem C10_whimsy_returns_bare_string (o : Oracles) (choice : Nat)
    (question mode output_format : String) :
    (∀ r, check_instant_whimsy (pyStrip (pyLower question)) choice = some r →
      answer_questionE o choice question mode output_format = (.ok (.outStr r), [])) ∧
    (∀ q2 ans cls md fm calls,
      answer_questionE o choice question mode output_format
        = (.ok (.outRec q2 ans cls md fm), calls) →
      check_instant_whimsy (pyStrip (pyLower question)) choice = none) := by
  constructor
  · intro r h
    unfold answer_questionE
    rw [h]
  · intro q2 ans cls md fm calls hcontra
    cases hc : check_instant_whimsy (pyStrip (pyLower question)) choice with
    | none => rfl
    | some r =>
      exfalso
      unfold answer_questionE at hcontra
      rw [hc] at hcontra
      simp at hcontra

/-- An oracle where every collaborator call succeeds trivially. -/
def oTriv : Oracles :=
  { embedR := .ok [], semR := .ok [], disjR := .ok [],
    ilikeR := fun _ _ => .ok [], softR := .ok [], genR := fun _ => .ok "" }

/-- Witness for C10: a whimsy question with `output_format = "json"`
still yields a bare string. -/
theorem C10_whimsy_returns_bare_string_witness :
    answer_questionE oTriv 0 "who made you" "default" "json"
      = (.ok (.outStr (pyChoice 0 creatorResponses)), []) :=
  (C10_whimsy_returns_bare_string oTriv 0 "who made you" "default" "json").1
    (pyChoice 0 creatorResponses)
    (by
      have hany : creator_keywords.any
          (fun k => containsSubStr k (pyStrip (pyLower "who made you"))) = true := by decide
      unfold check_instant_whimsy
      rw [if_pos hany])

/-- An oracle where the disjunctive store query fails but every other
collaborator call succeeds. -/
def oCatch : Oracles :=
  { embedR := .ok [], semR := .ok [], disjR := .error (),
    ilikeR := fun _ _ => .ok [], softR := .ok [], genR := fun _ => .ok "" }

/-- C6 counterexample: a failure of the disjunctive keyword-store query
is caught inside the retrieval step, which issues degraded per-keyword
store queries and succeeds — the store failure is not propagated to the
orchestrator, contrary to the claim that every external-collaborator
failure propagates without retry. -/
theorem C6_counterexample :
    oCatch.disjR = .error () ∧
    fetchE oCatch "fence" = (.ok [], [.embedCall, .semSearchCall, .disjStoreCall,
      .ilikeStoreCall "fence" 0, .ilikeStoreCall "fence" 1]) :=
  ⟨rfl, rfl⟩

/-- C6 (amended): embedding, semantic-search and text-generation failures
propagate without retry and surface to the caller as a single generic
failure, and an embedding failure is fatal with no further external call;
but a failure of the disjunctive keyword-store query is caught inside the
retrieval step, which then issues degraded per-keyword store queries, and
only failures of those degraded queries propagate. -/
theorem C6_amended_error_propagation (o : Oracles) (q : String) (choice : Nat)
    (mode fmt : String) :
    (o.embedR = .error () → fetchE o q = (.error (), [.embedCall])) ∧
    (o.semR = .error () → ∀ emb, o.embedR = .ok emb →
      fetchE o q = (.error (), [.embedCall, .semSearchCall])) ∧
    ((runDegraded o (kwPatterns (extract_keywords q) q)).1 = .error () →
      o.disjR = .error () → (fetchE o q).1 = .error ()) ∧
    (check_instant_whimsy (pyStrip (pyLower q)) choice = none →
      (fetchE o q).1 = .error () →
      (answer_questionE o choice q mode fmt).1 = .error () ∧
      askStatus o choice q mode fmt = 500) ∧
    (∀ cl calls txt, check_instant_whimsy (pyStrip (pyLower q)) choice = none →
      fetchE o q = (.ok cl, calls) → cl ≠ [] →
      format_clauses_for_prompt cl = .ok txt →
      o.genR (build_gpt_prompt q txt false) = .error () →
      (answer_questionE o choice q mode fmt).1 = .error ()) := by
  refine ⟨?_, ?_, ?_, ?_, ?_⟩
  · intro h
    unfold fetchE
    rw [h]
  · intro h1 emb h2
    unfold fetchE
    rw [h2, h1]
  · intro hdeg hdisj
    rcases hrd : runDegraded o (kwPatterns (extract_keywords q) q) with ⟨r, calls⟩
    rw [hrd] at hdeg
    cases r with
    | ok cs => exact absurd hdeg (by simp)
    | error e =>
      cases e
      cases he : o.embedR with
      | error e2 => cases e2; simp [fetchE, he]
      | ok emb =>
        cases hs : o.semR with
        | error e2 => cases e2; simp [fetchE, he, hs]
        | ok vecRaw => simp [fetchE, keywordLegE, he, hs, hdisj, hrd]
  · intro hwh hferr
    have hans : (answer_questionE o choice q mode fmt).1 = .error () := by
      rcases hf : fetchE o q with ⟨r, calls⟩
      rw [hf] at hferr
      cases r with
      | ok cs => exact absurd hferr (by simp)
      | error e =>
        cases e
        simp [answer_questionE, hwh, hf]
    refine ⟨hans, ?_⟩
    unfold askStatus
    rcases ha : answer_questionE o choice q mode fmt with ⟨r2, c2⟩
    rw [ha] at hans
    cases r2 with
    | error e => rfl
    | ok v => exact absurd hans (by simp)
  · intro cl calls txt hwh hf hne hfmt hgen
    simp [answer_questionE, hwh, hf, hne, hfmt, hgen]

/-- An oracle whose embedding call fails. -/
def oEmbedFail : Oracles :=
  { embedR := .error (), semR := .ok [], disjR := .ok [],
    ilikeR := fun _ _ => .ok [], softR := .ok [], genR := fun _ => .ok "" }

/-- Witness for C6 (amended): a concrete embedding failure is fatal with
no further external call, and surfaces as a generic 500. -/
theorem C6_amended_error_propagation_witness :
    fetchE oEmbedFail "fence" = (.error (), [.embedCall]) ∧
    askStatus oEmbedFail 0 "fence" "default" "markdown" = 500 := by
  have h1 := (C6_amended_error_propagation oEmbedFail "fence" 0 "default" "markdown").1 rfl
  have h2 := (C6_amended_error_propagation oEmbedFail "fence" 0 "default"
    "markdown").2.2.2.1 (by decide) (by rw [h1])
  exact ⟨h1, h2.2⟩

theorem fieldQuery_mem (store : List Clause) (field : Clause → Option String)
    (pat : String) (h10 : store.length ≤ 10) (c : Clause) :
    c ∈ fieldQuery store field pat ↔ c ∈ store ∧ ilikeField field pat c = true := by
  unfold fieldQuery
  rw [List.take_of_length_le (le_trans (List.length_filter_le _ _) h10)]
  exact List.mem_filter

theorem degradedChunks_mem (store : List Clause) :
    ∀ (pats : List String) (c : Clause),
      c ∈ degradedChunks store pats ↔
        ∃ k ∈ pats, c ∈ fieldQuery store (fun x => x.plain_summary) k ∨
          c ∈ fieldQuery store (fun x => x.clause_text) k := by
  intro pats
  induction pats with
  | nil => intro c; simp [degradedChunks]
  | cons k rest ih =>
    intro c
    simp only [degradedChunks, List.mem_append, ih]
    constructor
    · rintro ((h | h) | ⟨k2, hk2, h⟩)
      · exact ⟨k, List.mem_cons_self _ _, Or.inl h⟩
      · exact ⟨k, List.mem_cons_self _ _, Or.inr h⟩
      · exact ⟨k2, List.mem_cons_of_mem _ hk2, h⟩
    · rintro ⟨k2, hk2, h⟩
      rcases List.mem_cons.mp hk2 with rfl | hk2
      · rcases h with h | h
        · exact Or.inl (Or.inl h)
        · exact Or.inl (Or.inr h)
      · exact Or.inr ⟨k2, hk2, h⟩

theorem mergeFirstSeen_subset :
    ∀ (l : List Clause) (seen : List (Option String)) (c : Clause),
      c ∈ mergeFirstSeen seen l → c ∈ l := by
  intro l
  induction l with
  | nil => intro seen c h; simp [mergeFirstSeen] at h
  | cons d rest ih =>
    intro seen c h
    simp only [mergeFirstSeen] at h
    by_cases hd : cidOf d ∈ seen
    · rw [if_pos hd] at h
      exact List.mem_cons_of_mem _ (ih seen c h)
    · rw [if_neg hd] at h
      rcases List.mem_cons.mp h with rfl | h
      · exact List.mem_cons_self _ _
      · exact List.mem_cons_of_mem _ (ih _ c h)

theorem mergeFirstSeen_complete :
    ∀ (l : List Clause) (seen : List (Option String)) (c : Clause),
      c ∈ l → cidOf c ∉ seen →
      (∀ a ∈ l, ∀ b ∈ l, cidOf a = cidOf b → a = b) →
      c ∈ mergeFirstSeen seen l := by
  intro l
  induction l with
  | nil => intro seen c h; simp at h
  | cons d rest ih =>
    intro seen c h hns hinj
    simp only [mergeFirstSeen]
    by_cases hd : cidOf d ∈ seen
    · rw [if_pos hd]
      rcases List.mem_cons.mp h with rfl | h2
      · exact absurd hd hns
      · exact ih seen c h2 hns
          (fun a ha b hb =>
            hinj a (List.mem_cons_of_mem _ ha) b (List.mem_cons_of_mem _ hb))
    · rw [if_neg hd]
      rcases List.mem_cons.mp h with rfl | h2
      · exact List.mem_cons_self _ _
      · by_cases hcd : cidOf c = cidOf d
        · have hcd2 : c = d :=
            hinj c (List.mem_cons_of_mem _ h2) d (List.mem_cons_self _ _) hcd
          rw [hcd2]
          exact List.mem_cons_self _ _
        · refine List.mem_cons_of_mem _ (ih _ c h2 ?_
            (fun a ha b hb =>
              hinj a (List.mem_cons_of_mem _ ha) b (List.mem_cons_of_mem _ hb)))
          intro hc
          rcases List.mem_cons.mp hc with hc | hc
          · exact hcd hc
          · exact hns hc

theorem applyFilters_absent (f : Filters) (hft : f.ftags = [])
    (hfs : optTruthy f.fstructure = false) (hfc : optTruthy f.fconcern = false)
    (c : Clause) : applyFilters f c = true := by
  unfold applyFilters
  rw [hft]
  simp [hfs, hfc]

theorem disjQuery_mem (store : List Clause) (keywords : List String) (question : String)
    (f : Filters) (hft : f.ftags = []) (hfs : optTruthy f.fstructure = false)
    (hfc : optTruthy f.fconcern = false) (h10 : store.length ≤ 10) (c : Clause) :
    c ∈ disjQuery store keywords question f ↔
      c ∈ store ∧ kwOrMatch (kwPatterns keywords question) c = true := by
  unfold disjQuery
  have hfe : (fun x => kwOrMatch (kwPatterns keywords question) x && applyFilters f x)
      = fun x => kwOrMatch (kwPatterns keywords question) x := by
    funext x
    rw [applyFilters_absent f hft hfs hfc x, Bool.and_true]
  rw [hfe, List.take_of_length_le (le_trans (List.length_filter_le _ _) h10)]
  exact List.mem_filter

theorem degradedChunks_subset (store : List Clause) (pats : List String) (c : Clause)
    (h10 : store.length ≤ 10) : c ∈ degradedChunks store pats → c ∈ store := by
  intro h
  rcases (degradedChunks_mem store pats c).mp h with ⟨k, _, h | h⟩
  · exact ((fieldQuery_mem store _ k h10 c).mp h).1
  · exact ((fieldQuery_mem store _ k h10 c).mp h).1

/-- Concrete store row for the C4 counterexample. -/
def rowC4 : Clause :=
  { emptyClause with
    plain_summary := some "fence rules",
    tags := some (.tlist ["paint"]),
    clause_id := some "A" }

def storeC4 : List Clause := [rowC4]

def filtersC4 : Filters := { ftags := ["rental"], fstructure := none, fconcern := none }

/-- C4 counterexample: with a tags filter present, the degraded keyword
path returns a row that the disjunctive-filter path excludes — the
degraded path applies no optional filters, so the two paths do not yield
the same result set. -/
theorem C4_counterexample :
    rowC4 ∈ degradedQuery storeC4 (extract_keywords "fence") "fence" ∧
    rowC4 ∉ disjQuery storeC4 (extract_keywords "fence") "fence" filtersC4 := by
  constructor
  · decide
  · decide

/-- C4 (amended): the degraded keyword-leg path applies no optional
filters and no overall cap of 10; when no optional filters are given, the
store holds at most 10 rows (so no cap binds), and rows have pairwise
distinct deduplication keys, the two paths do yield the same result set. -/
theorem C4_amended_degraded_path_equiv (store : List Clause) (keywords : List String)
    (question : String) (f : Filters)
    (hft : f.ftags = []) (hfs : optTruthy f.fstructure = false)
    (hfc : optTruthy f.fconcern = false)
    (h10 : store.length ≤ 10)
    (hinj : ∀ a ∈ store, ∀ b ∈ store, cidOf a = cidOf b → a = b) :
    ∀ c, c ∈ disjQuery store keywords question f ↔
      c ∈ degradedQuery store keywords question := by
  intro c
  rw [disjQuery_mem store keywords question f hft hfs hfc h10 c]
  unfold degradedQuery
  have hinj2 : ∀ a ∈ degradedChunks store (kwPatterns keywords question),
      ∀ b ∈ degradedChunks store (kwPatterns keywords question),
      cidOf a = cidOf b → a = b :=
    fun a ha b hb => hinj a (degradedChunks_subset store _ a h10 ha)
      b (degradedChunks_subset store _ b h10 hb)
  constructor
  · rintro ⟨hcs, hmatch⟩
    apply mergeFirstSeen_complete _ [] c ?_ (by simp) hinj2
    rw [degradedChunks_mem]
    rcases List.any_eq_true.mp hmatch with ⟨k, hk, hor⟩
    rw [Bool.or_eq_true] at hor
    rcases hor with h | h
    · exact ⟨k, hk, Or.inl ((fieldQuery_mem store _ k h10 c).mpr ⟨hcs, h⟩)⟩
    · exact ⟨k, hk, Or.inr ((fieldQuery_mem store _ k h10 c).mpr ⟨hcs, h⟩)⟩
  · intro hmem
    have hchunk := mergeFirstSeen_subset _ [] c hmem
    rcases (degradedChunks_mem store _ c).mp hchunk with ⟨k, hk, h | h⟩
    · have hq := (fieldQuery_mem store _ k h10 c).mp h
      exact ⟨hq.1, List.any_eq_true.mpr ⟨k, hk, by rw [Bool.or_eq_true]; exact Or.inl hq.2⟩⟩
    · have hq := (fieldQuery_mem store _ k h10 c).mp h
      exact ⟨hq.1, List.any_eq_true.mpr ⟨k, hk, by rw [Bool.or_eq_true]; exact Or.inr hq.2⟩⟩

/-- Witness for C4 (amended) at a concrete store with no filters. -/
theorem C4_amended_degraded_path_equiv_witness :
    rowC4 ∈ disjQuery storeC4 (extract_keywords "fence") "fence" noFilters ↔
      rowC4 ∈ degradedQuery storeC4 (extract_keywords "fence") "fence" :=
  C4_amended_degraded_path_equiv storeC4 (extract_keywords "fence") "fence" noFilters
    rfl rfl rfl (by decide)
    (by
      intro a ha b hb hcid
      rw [List.mem_singleton.mp ha, List.mem_singleton.mp hb])
    rowC4

end HOA
